import Mathlib

/-!
Verification development for the `unt-files` directory-listing application.

The JavaScript source (`src/utils/directoryParser.js`, `src/hooks/useSearch.js`,
`src/hooks/useDirectoryData.js`) is shallowly embedded below.  Strings are Lean
`String`s (lists of Unicode scalar values); JavaScript string primitives
(`trim`, `toLowerCase`, `includes`, `split`, UTF-16 code units, `btoa`,
`decodeURIComponent`) are modelled by executable functions on `List Char`.
JavaScript numbers appearing in size arithmetic are modelled by exact rational
arithmetic (the spec and all inputs in scope stay far below the precision of
IEEE doubles).  Host collaborators that are not part of the repository (the
WHATWG `URL` resolver and the `Date` parser) are passed in as explicit
function parameters, so every theorem quantifies over their behaviour.

Case mappings (`toLowerCase`/`toUpperCase`) are modelled on the ASCII range,
which covers every constant and roster name occurring in the source.
-/

/-- Whitespace predicate modelling the JavaScript `\s` class and `trim` set
(ASCII whitespace plus the common Unicode space separators). -/
def jsWs (c : Char) : Bool :=
  c == ' ' || c == '\t' || c == '\n' || c == '\r' ||
  c.toNat == 0x0b || c.toNat == 0x0c || c.toNat == 0xa0 ||
  c.toNat == 0x1680 ||
  (0x2000 ≤ c.toNat && c.toNat ≤ 0x200a) ||
  c.toNat == 0x2028 || c.toNat == 0x2029 || c.toNat == 0x202f ||
  c.toNat == 0x205f || c.toNat == 0x3000 || c.toNat == 0xfeff

/-- JavaScript `String.prototype.trim`. -/
def jsTrim (s : String) : String :=
  ⟨((s.data.dropWhile jsWs).reverse.dropWhile jsWs).reverse⟩

/-- ASCII lower-casing of one character (model of the host case mapping on
the ASCII range). -/
def lowChar (c : Char) : Char :=
  if 65 ≤ c.toNat ∧ c.toNat ≤ 90 then Char.ofNat (c.toNat + 32) else c

/-- ASCII upper-casing of one character. -/
def upChar (c : Char) : Char :=
  if 97 ≤ c.toNat ∧ c.toNat ≤ 122 then Char.ofNat (c.toNat - 32) else c

/-- JavaScript `String.prototype.toLowerCase` (ASCII model). -/
def jsLower (s : String) : String := ⟨s.data.map lowChar⟩

/-- Boolean test that `p` is a prefix of `l`. -/
def listStarts : List Char → List Char → Bool
  | [], _ => true
  | _ :: _, [] => false
  | a :: as, b :: bs => a == b && listStarts as bs

/-- Boolean test that `p` occurs as a contiguous sublist of `l`. -/
def listHasSub (p : List Char) : List Char → Bool
  | [] => listStarts p []
  | l@(_ :: rest) => listStarts p l || listHasSub p rest

/-- JavaScript `s.includes(pat)`. -/
def strHas (s pat : String) : Bool := listHasSub pat.data s.data

/-- JavaScript `s.startsWith(pat)`. -/
def strStarts (s pat : String) : Bool := listStarts pat.data s.data

/-- JavaScript `s.endsWith(pat)`. -/
def strEnds (s pat : String) : Bool := listStarts pat.data.reverse s.data.reverse

/-- The proposition that `pat` occurs contiguously inside `s`. -/
def SubO (pat s : String) : Prop := ∃ p q, s.data = p ++ pat.data ++ q

/-- The proposition that `s` begins with `pat`. -/
def PrefO (pat s : String) : Prop := ∃ q, s.data = pat.data ++ q

theorem listStarts_iff (p l : List Char) : listStarts p l = true ↔ ∃ q, l = p ++ q := by
  induction p generalizing l with
  | nil => simp [listStarts]
  | cons a as ih =>
    cases l with
    | nil => simp [listStarts]
    | cons b bs =>
      simp only [listStarts, Bool.and_eq_true, beq_iff_eq, ih]
      constructor
      · rintro ⟨rfl, q, rfl⟩; exact ⟨q, rfl⟩
      · rintro ⟨q, h⟩
        injection h with h1 h2
        exact ⟨h1.symm, q, h2⟩

theorem listHasSub_iff (p l : List Char) :
    listHasSub p l = true ↔ ∃ a b, l = a ++ p ++ b := by
  induction l with
  | nil =>
    simp only [listHasSub, listStarts_iff]
    constructor
    · rintro ⟨q, h⟩; exact ⟨[], q, h⟩
    · rintro ⟨a, b, h⟩
      rcases List.append_eq_nil.mp (List.append_eq_nil.mp h.symm).1 with ⟨_, h2⟩
      exact ⟨b, by simp_all⟩
  | cons c rest ih =>
    simp only [listHasSub, Bool.or_eq_true, listStarts_iff, ih]
    constructor
    · rintro (⟨q, h⟩ | ⟨a, b, h⟩)
      · exact ⟨[], q, by simp [h]⟩
      · exact ⟨c :: a, b, by simp [h]⟩
    · rintro ⟨a, b, h⟩
      cases a with
      | nil => exact Or.inl ⟨b, by simpa using h⟩
      | cons x xs =>
        injection h with h1 h2
        exact Or.inr ⟨xs, b, by simpa using h2⟩

theorem strHas_iff (s pat : String) : strHas s pat = true ↔ SubO pat s :=
  listHasSub_iff pat.data s.data

theorem strStarts_iff (s pat : String) : strStarts s pat = true ↔ PrefO pat s :=
  listStarts_iff pat.data s.data

instance (pat s : String) : Decidable (SubO pat s) :=
  decidable_of_iff _ (strHas_iff s pat)

instance (pat s : String) : Decidable (PrefO pat s) :=
  decidable_of_iff _ (strStarts_iff s pat)

/-- UTF-16 code units of one Unicode scalar value. -/
def cu16 (c : Char) : List Nat :=
  if c.toNat < 0x10000 then [c.toNat]
  else [0xd800 + (c.toNat - 0x10000) / 0x400, 0xdc00 + (c.toNat - 0x10000) % 0x400]

/-- UTF-16 code units of a string (the JavaScript string model). -/
def utf16 (s : String) : List Nat := (s.data.map cu16).flatten

/-- Strict lexicographic order on code-unit sequences: the JavaScript `<`
relation on strings. -/
def lexLt : List Nat → List Nat → Bool
  | [], [] => false
  | [], _ :: _ => true
  | _ :: _, [] => false
  | a :: as, b :: bs => a < b || (a == b && lexLt as bs)

/-- Base64 alphabet used by `btoa`. -/
def b64Alphabet : List Char :=
  "ABCDEFGHIJKLMNOPQRSTUVWXYZabcdefghijklmnopqrstuvwxyz0123456789+/".data

/-- The base64 character for a sextet value. -/
def b64c (n : Nat) : Char := b64Alphabet.getD n '='

/-- Base64 encoding of a byte sequence, with `=` padding. -/
def b64Enc : List Nat → List Char
  | [] => []
  | [a] => [b64c (a / 4), b64c (a % 4 * 16), '=', '=']
  | [a, b] => [b64c (a / 4), b64c (a % 4 * 16 + b / 16), b64c (b % 16 * 4), '=']
  | a :: b :: c :: rest =>
    b64c (a / 4) :: b64c (a % 4 * 16 + b / 16) :: b64c (b % 16 * 4 + c / 64) ::
      b64c (c % 64) :: b64Enc rest

/-- Host `window.btoa`: base64-encodes the UTF-16 code units of the string,
raising (modelled as `Except.error`) when any code unit exceeds `0xff`. -/
def btoa (s : String) : Except Unit String :=
  let units := utf16 s
  if units.any (fun u => 255 < u) then .error () else .ok ⟨b64Enc units⟩

/-- Character class `[a-zA-Z0-9]` used by the id cleanup regex. -/
def isAlnumAscii (c : Char) : Bool :=
  (48 ≤ c.toNat && c.toNat ≤ 57) || (65 ≤ c.toNat && c.toNat ≤ 90) ||
  (97 ≤ c.toNat && c.toNat ≤ 122)

/-- `generateFileId` from `directoryParser.js`: base64 of `filename + href`,
stripped of non-alphanumeric characters and truncated to 16 characters.
`Except.error` models the `btoa` exception. -/
def generateFileId (filename href : String) : Except Unit String :=
  (btoa (filename ++ href)).map (fun b => ⟨(b.data.filter isAlnumAscii).take 16⟩)

/-- Value of one hexadecimal digit, if any. -/
def hexVal (c : Char) : Option Nat :=
  if 48 ≤ c.toNat ∧ c.toNat ≤ 57 then some (c.toNat - 48)
  else if 65 ≤ c.toNat ∧ c.toNat ≤ 70 then some (c.toNat - 55)
  else if 97 ≤ c.toNat ∧ c.toNat ≤ 102 then some (c.toNat - 87)
  else none

/-- Is a UTF-8 continuation byte. -/
def utf8Cont (b : Nat) : Bool := 128 ≤ b && b ≤ 191

/-- Percent-decoding core of the host `decodeURIComponent`: a `%XX` escape
introduces a UTF-8 sequence whose continuation bytes must follow as further
contiguous `%XX` escapes; malformed escapes or invalid UTF-8 fail. -/
def ducChars : List Char → Option (List Char)
  | [] => some []
  | '%' :: h1 :: h2 :: rest =>
    match hexVal h1, hexVal h2 with
    | some a, some b =>
      let b1 := 16 * a + b
      if b1 < 128 then (ducChars rest).map (fun l => Char.ofNat b1 :: l)
      else if 194 ≤ b1 ∧ b1 ≤ 223 then
        match rest with
        | '%' :: h3 :: h4 :: r2 =>
          match hexVal h3, hexVal h4 with
          | some a2, some b2 =>
            let byte2 := 16 * a2 + b2
            if utf8Cont byte2 then
              (ducChars r2).map (fun l => Char.ofNat ((b1 - 192) * 64 + (byte2 - 128)) :: l)
            else none
          | _, _ => none
        | _ => none
      else if 224 ≤ b1 ∧ b1 ≤ 239 then
        match rest with
        | '%' :: h3 :: h4 :: '%' :: h5 :: h6 :: r2 =>
          match hexVal h3, hexVal h4, hexVal h5, hexVal h6 with
          | some a2, some b2, some a3, some b3 =>
            let byte2 := 16 * a2 + b2
            let byte3 := 16 * a3 + b3
            let cp := (b1 - 224) * 4096 + (byte2 - 128) * 64 + (byte3 - 128)
            if utf8Cont byte2 ∧ utf8Cont byte3 ∧ 2048 ≤ cp ∧ ¬ (55296 ≤ cp ∧ cp ≤ 57343) then
              (ducChars r2).map (fun l => Char.ofNat cp :: l)
            else none
          | _, _, _, _ => none
        | _ => none
      else if 240 ≤ b1 ∧ b1 ≤ 244 then
        match rest with
        | '%' :: h3 :: h4 :: '%' :: h5 :: h6 :: '%' :: h7 :: h8 :: r2 =>
          match hexVal h3, hexVal h4, hexVal h5, hexVal h6, hexVal h7, hexVal h8 with
          | some a2, some b2, some a3, some b3, some a4, some b4 =>
            let byte2 := 16 * a2 + b2
            let byte3 := 16 * a3 + b3
            let byte4 := 16 * a4 + b4
            let cp := (b1 - 240) * 262144 + (byte2 - 128) * 4096 + (byte3 - 128) * 64 + (byte4 - 128)
            if utf8Cont byte2 ∧ utf8Cont byte3 ∧ utf8Cont byte4 ∧
                65536 ≤ cp ∧ cp ≤ 1114111 then
              (ducChars r2).map (fun l => Char.ofNat cp :: l)
            else none
          | _, _, _, _, _, _ => none
        | _ => none
      else none
    | _, _ => none
  | '%' :: _ :: [] => none
  | '%' :: [] => none
  | c :: rest => (ducChars rest).map (fun l => c :: l)

/-- Host `decodeURIComponent`; `Except.error` models the `URIError`. -/
def jsDecodeURI (s : String) : Except Unit String :=
  match ducChars s.data with
  | some l => .ok ⟨l⟩
  | none => .error ()

/-- Splits a character list at every occurrence of the separator character,
as JavaScript `split` with a one-character separator does. -/
def splitCh (sep : Char) : List Char → List (List Char)
  | [] => [[]]
  | c :: rest =>
    match splitCh sep rest with
    | [] => [[]]
    | h :: t => if c == sep then [] :: h :: t else (c :: h) :: t

/-- Maximal runs of non-whitespace characters. -/
def wsGroups (cur : List Char) : List Char → List (List Char)
  | [] => if cur.isEmpty then [] else [cur.reverse]
  | c :: rest =>
    if jsWs c then
      if cur.isEmpty then wsGroups [] rest else cur.reverse :: wsGroups [] rest
    else wsGroups (c :: cur) rest

/-- JavaScript `split(/\s+/)`: segments between maximal whitespace runs,
including the empty leading/trailing segments produced when the string
starts or ends with whitespace. -/
def jsSplitWsRuns (l : List Char) : List (List Char) :=
  match l with
  | [] => [[]]
  | c :: _ =>
    (if jsWs c then [[]] else []) ++ wsGroups [] l ++
      (if jsWs (l.getLastD ' ') then [[]] else [])

/-- Collapses every whitespace run to a single space, as
`replace(/\s+/g, ' ')` does; `prevWs` records whether the previous character
was part of a whitespace run. -/
def cwsRun (prevWs : Bool) : List Char → List Char
  | [] => []
  | c :: rest =>
    if jsWs c then
      if prevWs then cwsRun true rest else ' ' :: cwsRun true rest
    else c :: cwsRun false rest

/-- Strips a trailing `.extension` as the regex `\.[^.]+$` does: removes the
last dot and everything after it, provided at least one non-dot character
follows that dot. -/
def stripExt (s : String) : String :=
  let rev := s.data.reverse
  let tl := rev.takeWhile (fun c => c != '.')
  if 1 ≤ tl.length ∧ tl.length < rev.length then ⟨(rev.drop (tl.length + 1)).reverse⟩
  else s

/-- Numeric value of a digit string (most significant first). -/
def natOfDigits (l : List Char) : Nat :=
  l.foldl (fun n c => n * 10 + (c.toNat - 48)) 0

/-- Index of the first occurrence of `pat` in `l` (JavaScript `indexOf`). -/
def firstOccur (pat : List Char) : List Char → Option Nat
  | [] => if listStarts pat [] then some 0 else none
  | l@(_ :: rest) =>
    if listStarts pat l then some 0
    else (firstOccur pat rest).map (fun n => n + 1)

/-- Attempts to match the date regex `\d{4}-\d{2}-\d{2}\s+\d{2}:\d{2}` at the
head of `l`, returning the matched text. -/
def dateMatchAt (l : List Char) : Option (List Char) :=
  match l with
  | a :: b :: c :: d :: '-' :: e :: f :: '-' :: g :: h :: rest =>
    if a.isDigit ∧ b.isDigit ∧ c.isDigit ∧ d.isDigit ∧ e.isDigit ∧ f.isDigit ∧
        g.isDigit ∧ h.isDigit then
      let ws := rest.takeWhile jsWs
      match rest.drop ws.length with
      | p :: q :: ':' :: r :: s :: _ =>
        if p.isDigit ∧ q.isDigit ∧ r.isDigit ∧ s.isDigit ∧ ws ≠ [] then
          some ([a, b, c, d, '-', e, f, '-', g, h] ++ ws ++ [p, q, ':', r, s])
        else none
      | _ => none
    else none
  | _ => none

/-- Leftmost match of the date regex in `l`. -/
def dateSearch : List Char → Option (List Char)
  | [] => none
  | l@(_ :: rest) =>
    match dateMatchAt l with
    | some d => some d
    | none => dateSearch rest

/-- Suffix `K`, `M`, or `G` of a size token. -/
def isKMG (r : List Char) : Bool := r == ['K'] || r == ['M'] || r == ['G']

/-- Full match of the size-token alternation `\d+(?:\.\d+)?[KMG]?|\d+|-`. -/
def isSizeToken (w : List Char) : Bool :=
  w == ['-'] ||
  (let d1 := w.takeWhile Char.isDigit
   let r1 := w.drop d1.length
   !d1.isEmpty &&
     (r1.isEmpty ||
      (match r1 with
       | '.' :: r2 =>
         let d2 := r2.takeWhile Char.isDigit
         let r3 := r2.drop d2.length
         !d2.isEmpty && (r3.isEmpty || isKMG r3)
       | _ => isKMG r1)))

/-- The capture of the size regex `\s+(\d+(?:\.\d+)?[KMG]?|\d+|-)\s*$` on the
text after the filename: the final whitespace-delimited word, provided it is
preceded by whitespace and fully matches the token alternation. -/
def sizeTok (after : List Char) : Option (List Char) :=
  let t := after.reverse.dropWhile jsWs
  let wrev := t.takeWhile (fun c => !jsWs c)
  if wrev.length < t.length ∧ isSizeToken wrev.reverse then some wrev.reverse
  else none

/-- `convertSizeToBytes` from `directoryParser.js`.  The leading number is
re-parsed by `/^(\d+(?:\.\d+)?)/` and multiplied by the unit taken from the
last character; `parseFloat` and `Math.floor` are modelled by exact rational
arithmetic, computed here as integer division. -/
def convertSizeToBytes (s : String) : Nat :=
  let w := s.data
  let d1 := w.takeWhile Char.isDigit
  if d1.isEmpty then 0
  else
    let r1 := w.drop d1.length
    let frac :=
      match r1 with
      | '.' :: r2 =>
        let d2 := r2.takeWhile Char.isDigit
        if d2.isEmpty then [] else d2
      | _ => []
    let i := natOfDigits d1
    let f := natOfDigits frac
    let k := frac.length
    let unit := upChar (w.getLastD '0')
    let mult : Nat :=
      if unit = 'K' then 1024
      else if unit = 'M' then 1024 * 1024
      else if unit = 'G' then 1024 * 1024 * 1024
      else 1
    (i * 10 ^ k + f) * mult / 10 ^ k

/-- Result of `parseListingLine`. -/
structure LineMeta where
  date : String
  size : String
  sizeBytes : Nat
deriving DecidableEq, Repr

/-- `parseListingLine` from `directoryParser.js`: locates the filename in the
row text, then extracts the date token and the trailing size token from the
text after it. -/
def parseListingLine (lineText filename : String) : LineMeta :=
  match firstOccur filename.data lineText.data with
  | none => ⟨"Unknown", "Unknown", 0⟩
  | some i =>
    let afterFilename := lineText.data.drop (i + filename.data.length)
    let date : String :=
      match dateSearch afterFilename with
      | some d => ⟨d⟩
      | none => "Unknown"
    match sizeTok afterFilename with
    | none => ⟨date, "Unknown", 0⟩
    | some w =>
      if w = ['-'] then ⟨date, "Directory", 0⟩
      else ⟨date, ⟨w⟩, convertSizeToBytes ⟨w⟩⟩

/-- The extension→type table of `determineFileType`. -/
def typeMap : List (String × String) :=
  [("pdf", "document"), ("txt", "document"), ("doc", "document"),
   ("docx", "document"), ("mp4", "video"), ("mpg", "video"),
   ("mpeg", "video"), ("mov", "video"), ("avi", "video"),
   ("zip", "archive"), ("rar", "archive"), ("7z", "archive"),
   ("htm", "webpage"), ("html", "webpage")]

/-- `determineFileType` from `directoryParser.js`: hrefs ending in `/` are
folders; otherwise the lower-cased last `split('.')` segment is looked up in
the table, defaulting to `document`. -/
def determineFileType (filename href : String) : String :=
  if strEnds href "/" then "folder"
  else
    let extension := jsLower ⟨(splitCh '.' filename.data).getLastD []⟩
    (typeMap.lookup extension).getD "document"

/-- Pattern `^TJ\d+`: the text starts with `TJ` followed by a digit. -/
def pTJ (s : String) : Bool :=
  match s.data with
  | 'T' :: 'J' :: c :: _ => c.isDigit
  | _ => false

/-- Case-insensitive substring pattern such as `/Jackson/i`. -/
def pCI (pat : String) (s : String) : Bool := strHas (jsLower s) (jsLower pat)

/-- Scan after a `rebecca` occurrence for `schwinden`, not crossing a line
terminator (the `.` of the regex does not match line terminators). -/
def afterReb : List Char → Bool
  | [] => false
  | l@(c :: rest) =>
    listStarts "schwinden".data l ||
      (!(c == '\n' || c == '\r' || c.toNat == 0x2028 || c.toNat == 0x2029) &&
        afterReb rest)

/-- Scan for a `rebecca` occurrence followed (same line) by `schwinden`. -/
def rebScan : List Char → Bool
  | [] => false
  | l@(_ :: rest) =>
    (listStarts "rebecca".data l && afterReb (l.drop 7)) || rebScan rest

/-- Pattern `/Rebecca.*Schwinden/i` on the lower-cased text. -/
def pRebecca (s : String) : Bool := rebScan (jsLower s).data

/-- The ordered pattern list of `extractPersonFromFilename`: first match
wins. -/
def personPatterns : List ((String → Bool) × String) :=
  [(pTJ, "Timothy Jackson"),
   (pCI "Jackson", "Timothy Jackson"),
   (pCI "Ewell", "Philip Ewell"),
   (pCI "Walls", "Levi Walls"),
   (pCI "Brand", "Benjamin Brand"),
   (pCI "Graf", "Benjamin Graf"),
   (pCI "Gain", "Rachel Gain"),
   (pCI "Heidlberger", "Frank Heidlberger"),
   (pRebecca, "Rebecca Dowd Geoffroy-Schwinden"),
   (pCI "Cowley", "Jennifer Cowley"),
   (pCI "Ishiyama", "John Ishiyama"),
   (pCI "Slottow", "Stephen Slottow"),
   (pCI "Chung", "Andrew Chung"),
   (pCI "Bakulina", "Ellen Bakulina"),
   (pCI "Kohanski", "Peter Kohanski"),
   (pCI "Chaouat", "Bruno Chaouat")]

/-- First matching pattern of an ordered rule list. -/
def firstMatch (s : String) : List ((String → Bool) × String) → Option String
  | [] => none
  | (p, n) :: rest => if p s then some n else firstMatch s rest

/-- Title-casing of one underscore segment:
`charAt(0).toUpperCase() + slice(1).toLowerCase()`. -/
def titleCase (part : String) : String :=
  match part.data with
  | [] => ""
  | c :: rest => ⟨upChar c :: rest.map lowChar⟩

/-- JavaScript `Array.prototype.join(sep)` for strings. -/
def joinSep (sep : String) : List String → String
  | [] => ""
  | [s] => s
  | s :: rest => s ++ sep ++ joinSep sep rest

/-- `extractPersonFromFilename` from `directoryParser.js`. -/
def extractPersonFromFilename (filename : String) : String :=
  let nameWithoutExt := stripExt filename
  match firstMatch nameWithoutExt personPatterns with
  | some n => n
  | none =>
    if nameWithoutExt.data.contains '_' then
      let parts := (splitCh '_' nameWithoutExt.data).map (fun l => (⟨l⟩ : String))
      if 2 ≤ parts.length then joinSep " " (parts.map titleCase)
      else "Unknown"
    else "Unknown"

/-- `cleanDisplayName` from `directoryParser.js`: percent-decode, strip the
extension, underscores to spaces, collapse whitespace, trim.  The
`Except.error` models the `URIError` of `decodeURIComponent`. -/
def cleanDisplayName (filename : String) : Except Unit String := do
  let dec ← jsDecodeURI filename
  let noExt := stripExt dec
  let spaced := noExt.data.map (fun c => if c == '_' then ' ' else c)
  pure (jsTrim ⟨cwsRun false spaced⟩)

/-- Keyword character filter: the regex `[^a-z0-9\s]` replaced by a space on
the lower-cased filename keeps `a-z`, `0-9` and whitespace. -/
def isKwChar (c : Char) : Bool :=
  (97 ≤ c.toNat && c.toNat ≤ 122) || (48 ≤ c.toNat && c.toNat ≤ 57) || jsWs c

/-- De-duplication keeping first occurrences (JavaScript `new Set`). -/
def dedupFirst (seen : List String) : List String → List String
  | [] => []
  | x :: xs =>
    if x ∈ seen then dedupFirst seen xs else x :: dedupFirst (x :: seen) xs

/-- `generateKeywords` from `directoryParser.js`. -/
def generateKeywords (filename fileType person : String) : List String :=
  let lower := jsLower filename
  let cleaned := lower.data.map (fun c => if isKwChar c then c else ' ')
  let filenameWords :=
    ((jsSplitWsRuns cleaned).filter (fun w => 2 < w.length)).map
      (fun w => (⟨w⟩ : String))
  let base := filenameWords ++ [fileType]
  let withPerson :=
    if person ≠ "Unknown" then
      base ++ (jsSplitWsRuns (jsLower person).data).map (fun w => (⟨w⟩ : String))
    else base
  let k1 :=
    if strHas lower "deposition" then withPerson ++ ["testimony", "legal", "court"]
    else withPerson
  let k2 :=
    if strHas lower "motion" then k1 ++ ["legal", "court", "filing"]
    else k1
  let k3 :=
    if strHas lower "exhibit" then k2 ++ ["evidence", "legal", "court"]
    else k2
  dedupFirst [] k3

/-- The enriched file record built by `extractFileMetadata`. -/
structure FileRecord where
  id : String
  filename : String
  displayName : String
  url : String
  type : String
  person : String
  date : String
  size : String
  sizeBytes : Nat
  keywords : List String
deriving DecidableEq, Repr

/-- `isNavigationLink` from `directoryParser.js`. -/
def isNavigationLink (href filename : String) : Bool :=
  strHas href ".." || strHas filename "Parent Directory" ||
  strHas href "?C=" || strStarts href "?" || strStarts href "#"

/-- One anchor of the listing container: its href attribute, its text
content, and the text content of its parent element (empty when the anchor
has no parent). -/
structure Entry where
  href : String
  text : String
  parentText : String
deriving DecidableEq, Repr

/-- `extractFileMetadata` from `directoryParser.js`, parameterized by the
host URL resolver (`new URL(href, baseUrl)`); `none` models the `catch`
branch that logs and returns `null`. -/
def extractFileMetadata (resolve : String → String → Except Unit String)
    (baseUrl filename href parentText : String) : Option FileRecord :=
  let metadata := parseListingLine parentText filename
  match resolve href baseUrl with
  | .error _ => none
  | .ok fullUrl =>
    let fileType := determineFileType filename href
    let person := extractPersonFromFilename filename
    match generateFileId filename href with
    | .error _ => none
    | .ok fid =>
      match cleanDisplayName filename with
      | .error _ => none
      | .ok dn =>
        some
          { id := fid
            filename := filename
            displayName := dn
            url := fullUrl
            type := fileType
            person := person
            date := metadata.date
            size := metadata.size
            sizeBytes := metadata.sizeBytes
            keywords := generateKeywords filename fileType person }

/-- The per-anchor loop of `parseDirectoryListing`, operating on the anchors
already extracted from the DOM in document order: navigation links are
skipped, and each remaining anchor contributes a record exactly when its
metadata extraction succeeds. -/
def parseEntries (resolve : String → String → Except Unit String)
    (baseUrl : String) (entries : List Entry) : List FileRecord :=
  entries.filterMap (fun e =>
    let filename := jsTrim e.text
    if isNavigationLink e.href filename then none
    else extractFileMetadata resolve baseUrl filename e.href e.parentText)

/-- The search of `useSearch.js`: a blank (empty or whitespace-only) term
returns the record list unchanged; otherwise the lower-cased trimmed term is
matched against display name, filename, person (all lower-cased), the raw
keywords, and the lower-cased type. -/
def searchFiles (searchTerm : String) (files : List FileRecord) : List FileRecord :=
  if jsTrim searchTerm = "" then files
  else
    let term := jsTrim (jsLower searchTerm)
    files.filter (fun file =>
      strHas (jsLower file.displayName) term ||
      strHas (jsLower file.filename) term ||
      strHas (jsLower file.person) term ||
      file.keywords.any (fun keyword => strHas keyword term) ||
      strHas (jsLower file.type) term)

/-- `filterFiles` from `useDirectoryData.js`: text search ANDed with the
person and type filters, where `all` is a wildcard. -/
def filterFiles (files : List FileRecord)
    (searchTerm personFilter typeFilter : String) : List FileRecord :=
  files.filter (fun file =>
    let searchMatch :=
      searchTerm == "" ||
      strHas (jsLower file.filename) (jsLower searchTerm) ||
      strHas (jsLower file.displayName) (jsLower searchTerm) ||
      strHas (jsLower file.person) (jsLower searchTerm) ||
      file.keywords.any (fun keyword => strHas (jsLower keyword) (jsLower searchTerm))
    let personMatch := personFilter == "all" || file.person == personFilter
    let typeMatch := typeFilter == "all" || file.type == typeFilter
    searchMatch && personMatch && typeMatch)

/-- One step of the JavaScript three-way comparator: `-1` when the left key
is smaller, `1` when it is greater, `0` otherwise, with descending order
flipping the polarity. -/
def cmpOf (lt gt asc : Bool) : Int :=
  if lt then (if asc then -1 else 1)
  else if gt then (if asc then 1 else -1)
  else 0

/-- Code-unit key for the string-valued sort keys (lower-cased value). -/
def strKey (s : String) : List Nat := utf16 (jsLower s)

/-- The comparator of `sortFiles` in `useDirectoryData.js`.  `dateVal` is the
host `Date` parser, mapping a date string to its timestamp; `Unknown` dates
are replaced by `new Date(0)`, the epoch. -/
def jsCompare (dateVal : String → Int) (sortBy sortOrder : String)
    (a b : FileRecord) : Int :=
  let asc := sortOrder == "asc"
  if sortBy = "date" then
    let av := if a.date = "Unknown" then 0 else dateVal a.date
    let bv := if b.date = "Unknown" then 0 else dateVal b.date
    cmpOf (decide (av < bv)) (decide (bv < av)) asc
  else if sortBy = "size" then
    cmpOf (decide (a.sizeBytes < b.sizeBytes)) (decide (b.sizeBytes < a.sizeBytes)) asc
  else if sortBy = "person" then
    cmpOf (lexLt (strKey a.person) (strKey b.person))
      (lexLt (strKey b.person) (strKey a.person)) asc
  else if sortBy = "type" then
    cmpOf (lexLt (strKey a.type) (strKey b.type))
      (lexLt (strKey b.type) (strKey a.type)) asc
  else
    cmpOf (lexLt (strKey a.displayName) (strKey b.displayName))
      (lexLt (strKey b.displayName) (strKey a.displayName)) asc

/-- Non-strict order induced by the comparator. -/
def sortLe (dateVal : String → Int) (sortBy sortOrder : String)
    (a b : FileRecord) : Bool :=
  decide (jsCompare dateVal sortBy sortOrder a b ≤ 0)

/-- `sortFiles` from `useDirectoryData.js`: `[...filesToSort].sort(cmp)`,
modelled by the stable merge sort mandated for `Array.prototype.sort`. -/
def sortFiles (dateVal : String → Int) (filesToSort : List FileRecord)
    (sortBy sortOrder : String) : List FileRecord :=
  filesToSort.mergeSort (sortLe dateVal sortBy sortOrder)

theorem lexLt_asymm : ∀ u v, lexLt u v = true → lexLt v u = false := by
  intro u
  induction u with
  | nil => intro v h; cases v <;> simp_all [lexLt]
  | cons a as ih =>
    intro v h
    cases v with
    | nil => simp_all [lexLt]
    | cons b bs =>
      simp only [lexLt, Bool.or_eq_true, Bool.and_eq_true, beq_iff_eq,
        decide_eq_true_eq] at h
      rcases h with h | ⟨rfl, h⟩
      · have h1 : ¬ (b < a) := by omega
        have h2 : (b == a) = false := by simp; omega
        simp [lexLt, h1, h2]
      · simp [lexLt, ih bs h]

theorem lexLt_trichot : ∀ u v, lexLt u v = true ∨ u = v ∨ lexLt v u = true := by
  intro u
  induction u with
  | nil => intro v; cases v <;> simp [lexLt]
  | cons a as ih =>
    intro v
    cases v with
    | nil => simp [lexLt]
    | cons b bs =>
      rcases Nat.lt_trichotomy a b with h | rfl | h
      · exact Or.inl (by simp [lexLt, h])
      · rcases ih bs with h | rfl | h
        · exact Or.inl (by simp [lexLt, h])
        · exact Or.inr (Or.inl rfl)
        · exact Or.inr (Or.inr (by simp [lexLt, h]))
      · exact Or.inr (Or.inr (by simp [lexLt, h]))

theorem lexLt_trans : ∀ u v w, lexLt u v = true → lexLt v w = true →
    lexLt u w = true := by
  intro u
  induction u with
  | nil =>
    intro v w h1 h2
    cases v <;> cases w <;> simp_all [lexLt]
  | cons a as ih =>
    intro v w h1 h2
    cases v with
    | nil => simp_all [lexLt]
    | cons b bs =>
      cases w with
      | nil => simp_all [lexLt]
      | cons c cs =>
        simp only [lexLt, Bool.or_eq_true, Bool.and_eq_true, beq_iff_eq,
          decide_eq_true_eq] at h1 h2 ⊢
        rcases h1 with h1 | ⟨rfl, h1⟩
        · rcases h2 with h2 | ⟨rfl, h2⟩
          · exact Or.inl (by omega)
          · exact Or.inl h1
        · rcases h2 with h2 | ⟨rfl, h2⟩
          · exact Or.inl h2
          · exact Or.inr ⟨rfl, ih bs cs h1 h2⟩

theorem ltB_le_total {κ : Type} (lt : κ → κ → Bool)
    (hasym : ∀ x y, lt x y = true → lt y x = false) (asc : Bool) (x y : κ) :
    cmpOf (lt x y) (lt y x) asc ≤ 0 ∨ cmpOf (lt y x) (lt x y) asc ≤ 0 := by
  cases h1 : lt x y with
  | true =>
    rw [hasym _ _ h1]
    cases asc <;> simp [cmpOf]
  | false => cases h2 : lt y x <;> cases asc <;> simp [cmpOf]

theorem cmpOf_le_iff (l g asc : Bool) :
    cmpOf l g asc ≤ 0 ↔ (if asc then l = true ∨ g = false else l = false) := by
  cases l <;> cases g <;> cases asc <;> decide

theorem ltB_le_trans {κ : Type} (lt : κ → κ → Bool)
    (hasym : ∀ x y, lt x y = true → lt y x = false)
    (htri : ∀ x y, lt x y = true ∨ x = y ∨ lt y x = true)
    (htrans : ∀ x y z, lt x y = true → lt y z = true → lt x z = true)
    (asc : Bool) (x y z : κ)
    (h1 : cmpOf (lt x y) (lt y x) asc ≤ 0)
    (h2 : cmpOf (lt y z) (lt z y) asc ≤ 0) :
    cmpOf (lt x z) (lt z x) asc ≤ 0 := by
  rw [cmpOf_le_iff] at h1 h2 ⊢
  cases asc with
  | true =>
    simp only [if_pos rfl] at h1 h2 ⊢
    have hyx : lt y x = false := h1.elim (fun h => hasym _ _ h) id
    have hzy : lt z y = false := h2.elim (fun h => hasym _ _ h) id
    right
    cases hzx : lt z x with
    | false => rfl
    | true =>
      exfalso
      rcases htri x y with h | rfl | h
      · simp [htrans z x y hzx h] at hzy
      · exact absurd hzx (by simp [hzy])
      · exact absurd h (by simp [hyx])
  | false =>
    simp only [Bool.false_eq_true, if_false] at h1 h2 ⊢
    cases hxz : lt x z with
    | false => rfl
    | true =>
      exfalso
      rcases htri x y with h | rfl | h
      · simp [h] at h1
      · exact absurd hxz (by simp [h2])
      · simp [htrans y x z h hxz] at h2

theorem intLtB_asymm : ∀ x y : Int, decide (x < y) = true → decide (y < x) = false := by
  intro x y h
  simp only [decide_eq_true_eq] at h
  simp only [decide_eq_false_iff_not]
  omega

theorem intLtB_trichot : ∀ x y : Int,
    decide (x < y) = true ∨ x = y ∨ decide (y < x) = true := by
  intro x y
  simp only [decide_eq_true_eq]
  omega

theorem intLtB_trans : ∀ x y z : Int, decide (x < y) = true →
    decide (y < z) = true → decide (x < z) = true := by
  intro x y z h1 h2
  simp only [decide_eq_true_eq] at *
  omega

theorem natLtB_asymm : ∀ x y : Nat, decide (x < y) = true → decide (y < x) = false := by
  intro x y h
  simp only [decide_eq_true_eq] at h
  simp only [decide_eq_false_iff_not]
  omega

theorem natLtB_trichot : ∀ x y : Nat,
    decide (x < y) = true ∨ x = y ∨ decide (y < x) = true := by
  intro x y
  simp only [decide_eq_true_eq]
  omega

theorem natLtB_trans : ∀ x y z : Nat, decide (x < y) = true →
    decide (y < z) = true → decide (x < z) = true := by
  intro x y z h1 h2
  simp only [decide_eq_true_eq] at *
  omega

theorem sortLe_total (dv : String → Int) (k o : String) (a b : FileRecord) :
    sortLe dv k o a b = true ∨ sortLe dv k o b a = true := by
  simp only [sortLe, decide_eq_true_eq, jsCompare]
  by_cases h1 : k = "date"
  · simp only [if_pos h1]
    exact ltB_le_total (fun x y : Int => decide (x < y)) intLtB_asymm _ _ _
  · simp only [if_neg h1]
    by_cases h2 : k = "size"
    · simp only [if_pos h2]
      exact ltB_le_total (fun x y : Nat => decide (x < y)) natLtB_asymm _ _ _
    · simp only [if_neg h2]
      by_cases h3 : k = "person"
      · simp only [if_pos h3]
        exact ltB_le_total lexLt lexLt_asymm _ _ _
      · simp only [if_neg h3]
        by_cases h4 : k = "type"
        · simp only [if_pos h4]
          exact ltB_le_total lexLt lexLt_asymm _ _ _
        · simp only [if_neg h4]
          exact ltB_le_total lexLt lexLt_asymm _ _ _

theorem sortLe_trans (dv : String → Int) (k o : String) (a b c : FileRecord) :
    sortLe dv k o a b = true → sortLe dv k o b c = true →
    sortLe dv k o a c = true := by
  simp only [sortLe, decide_eq_true_eq, jsCompare]
  by_cases h1 : k = "date"
  · simp only [if_pos h1]
    exact ltB_le_trans (fun x y : Int => decide (x < y))
      intLtB_asymm intLtB_trichot intLtB_trans _ _ _ _
  · simp only [if_neg h1]
    by_cases h2 : k = "size"
    · simp only [if_pos h2]
      exact ltB_le_trans (fun x y : Nat => decide (x < y))
        natLtB_asymm natLtB_trichot natLtB_trans _ _ _ _
    · simp only [if_neg h2]
      by_cases h3 : k = "person"
      · simp only [if_pos h3]
        exact ltB_le_trans lexLt lexLt_asymm lexLt_trichot lexLt_trans _ _ _ _
      · simp only [if_neg h3]
        by_cases h4 : k = "type"
        · simp only [if_pos h4]
          exact ltB_le_trans lexLt lexLt_asymm lexLt_trichot lexLt_trans _ _ _ _
        · simp only [if_neg h4]
          exact ltB_le_trans lexLt lexLt_asymm lexLt_trichot lexLt_trans _ _ _ _

/-- Byte multiplier named by a size suffix (1024, 1024², 1024³, else 1). -/
def multOf (suf : Char) : Nat :=
  if suf = 'K' then 1024
  else if suf = 'M' then 1024 * 1024
  else if suf = 'G' then 1024 * 1024 * 1024
  else 1

/-- Model of the host URL resolution (`new URL(href, baseUrl)`) for the plain
relative references used in the concrete examples below, resolved against a
directory base URL by concatenation. -/
def urlResolveDir : String → String → Except Unit String :=
  fun href base => Except.ok (base ++ href)

/-- Sample record whose only match for `jackson` is an upper-cased keyword. -/
def kwRec : FileRecord :=
  ⟨"id1", "x", "x", "u", "document", "Unknown", "Unknown", "Unknown", 0, ["JACKSON"]⟩

/-- Sample record of type `document` (for tie-breaking tests). -/
def recA : FileRecord :=
  ⟨"a1", "b.pdf", "b", "u1", "document", "Unknown", "Unknown", "5", 5, []⟩

/-- Second sample record of type `document`, smaller name key. -/
def recB : FileRecord :=
  ⟨"a2", "a.pdf", "a", "u2", "document", "Unknown", "Unknown", "9", 9, []⟩

/-- Entry whose filename contains a code point above 255. -/
def unicodeEntry : Entry := ⟨"ā.pdf", "ā.pdf", ""⟩

/-- Ordinary ASCII entry. -/
def plainEntry : Entry := ⟨"plain.pdf", "plain.pdf", ""⟩

/-- Entry whose visible text mentions, but does not equal, `Parent Directory`. -/
def pdEntry : Entry := ⟨"notes.pdf", "Old Parent Directory scan", ""⟩

/-- First of two listing entries whose `filename + href` strings agree on a
long common prefix. -/
def collEntryA : Entry :=
  ⟨"EvidenceArchiveCommonMaterialGroupPartOne1.pdf",
   "EvidenceArchiveCommonMaterialGroupPartOne1.pdf", ""⟩

/-- Second colliding entry, differing from the first only near the end. -/
def collEntryB : Entry :=
  ⟨"EvidenceArchiveCommonMaterialGroupPartOne2.pdf",
   "EvidenceArchiveCommonMaterialGroupPartOne2.pdf", ""⟩

theorem strEta (s : String) : (⟨s.data⟩ : String) = s := by cases s; rfl

theorem strDataAppend (s t : String) : (s ++ t).data = s.data ++ t.data := by
  cases s; cases t; rfl

/-- C7: `sortFiles` is stable for every sort key and order: two records that
the comparator ties keep their relative order from the input sequence, for
every host date valuation.  In particular sorting by `type` ascending
preserves the original relative order among records sharing a type. -/
theorem claim_C7_sort_stable (dateVal : String → Int) (sortBy sortOrder : String)
    (l : List FileRecord) (a b : FileRecord)
    (htie : jsCompare dateVal sortBy sortOrder a b = 0)
    (hpair : List.Sublist [a, b] l) :
    List.Sublist [a, b] (sortFiles dateVal l sortBy sortOrder) := by
  have hab : sortLe dateVal sortBy sortOrder a b = true := by
    simp [sortLe, htie]
  have htot : ∀ x y : FileRecord,
      (sortLe dateVal sortBy sortOrder x y || sortLe dateVal sortBy sortOrder y x) = true := by
    intro x y
    rcases sortLe_total dateVal sortBy sortOrder x y with h | h <;> simp [h]
  exact List.pair_sublist_mergeSort (sortLe_trans dateVal sortBy sortOrder) htot hab hpair

/-- Closed instance of `claim_C7_sort_stable`: two `document` records tie
under the `type` key and stay in order through the sort. -/
theorem claim_C7_witness :
    jsCompare (fun _ => 0) "type" "asc" recA recB = 0 ∧
    List.Sublist [recA, recB] (sortFiles (fun _ => 0) [recA, recB] "type" "asc") :=
  ⟨by decide, claim_C7_sort_stable (fun _ => 0) "type" "asc" [recA, recB] recA recB
    (by decide) (List.Sublist.refl _)⟩

/-- C8: the query engine is pure on the record sequence: `sortFiles` returns
a permutation of its input (every record stays the very value it was, no
field mutated), and `filterFiles`/`searchFiles` return sublists of the input;
in this embedding the input list itself is a value and cannot be mutated. -/
theorem claim_C8_pure_queries (dateVal : String → Int) (l : List FileRecord)
    (sortBy sortOrder searchTerm personFilter typeFilter : String) :
    List.Perm (sortFiles dateVal l sortBy sortOrder) l ∧
    List.Sublist (filterFiles l searchTerm personFilter typeFilter) l ∧
    List.Sublist (searchFiles searchTerm l) l := by
  refine ⟨List.mergeSort_perm l _, List.filter_sublist l, ?_⟩
  unfold searchFiles
  split
  · exact List.Sublist.refl l
  · exact List.filter_sublist l

theorem utf16_big_of_mem {s : String} {c : Char} (hc : c ∈ s.data)
    (hbig : 255 < c.toNat) : (utf16 s).any (fun u => 255 < u) = true := by
  have hex : ∃ u ∈ cu16 c, 255 < u := by
    unfold cu16
    split
    · exact ⟨c.toNat, by simp, hbig⟩
    · exact ⟨0xd800 + (c.toNat - 0x10000) / 0x400, by simp, by omega⟩
  rcases hex with ⟨u, hu, hub⟩
  simp only [utf16, List.any_eq_true]
  refine ⟨u, ?_, by simpa using hub⟩
  simp only [List.mem_flatten]
  exact ⟨cu16 c, List.mem_map_of_mem cu16 hc, hu⟩

theorem btoa_error_of_big {s : String} (h : ∃ c ∈ s.data, 255 < c.toNat) :
    btoa s = .error () := by
  rcases h with ⟨c, hc, hbig⟩
  simp [btoa, utf16_big_of_mem hc hbig]

/-- C9: an entry whose filename or href contains a code point above 255 makes
`extractFileMetadata` return `null` (the `btoa` inside `generateFileId`
raises and the per-entry handler catches it), whatever the URL resolver does:
the file is silently dropped from the parse result. -/
theorem claim_C9_highchar_null (resolve : String → String → Except Unit String)
    (baseUrl filename href parentText : String)
    (h : (∃ c ∈ filename.data, 255 < c.toNat) ∨ (∃ c ∈ href.data, 255 < c.toNat)) :
    extractFileMetadata resolve baseUrl filename href parentText = none := by
  have hcat : ∃ c ∈ (filename ++ href).data, 255 < c.toNat := by
    rw [strDataAppend]
    rcases h with ⟨c, hc, hb⟩ | ⟨c, hc, hb⟩
    · exact ⟨c, List.mem_append_left _ hc, hb⟩
    · exact ⟨c, List.mem_append_right _ hc, hb⟩
  have hid : generateFileId filename href = .error () := by
    simp [generateFileId, btoa_error_of_big hcat, Except.map]
  unfold extractFileMetadata
  cases resolve href baseUrl with
  | error e => rfl
  | ok u => simp [hid]

/-- Closed instance of `claim_C9_highchar_null` at a concrete entry. -/
theorem claim_C9_witness :
    (∃ c ∈ ("ā.pdf" : String).data, 255 < c.toNat) ∧
    extractFileMetadata urlResolveDir "https://e/" "ā.pdf" "ā.pdf" "" = none :=
  ⟨by decide, claim_C9_highchar_null urlResolveDir "https://e/" "ā.pdf" "ā.pdf" ""
    (Or.inl (by decide))⟩

/-- C6: metadata extraction is total (it yields a record or `none`, never an
exception), and a failing entry is dropped at single-entry granularity: the
parse of any batch containing it equals the parse of the batch without it,
so one malformed row never aborts the batch. -/
theorem claim_C6_per_entry_isolation (resolve : String → String → Except Unit String)
    (baseUrl : String) (xs ys : List Entry) (e : Entry)
    (hfail : extractFileMetadata resolve baseUrl (jsTrim e.text) e.href e.parentText = none) :
    parseEntries resolve baseUrl (xs ++ e :: ys) = parseEntries resolve baseUrl (xs ++ ys) := by
  have hfe : (fun e : Entry =>
      let filename := jsTrim e.text
      if isNavigationLink e.href filename then none
      else extractFileMetadata resolve baseUrl filename e.href e.parentText) e = none := by
    by_cases hn : isNavigationLink e.href (jsTrim e.text) = true
    · simp [hn]
    · simp only [Bool.not_eq_true] at hn
      simp [hn, hfail]
  simp [parseEntries, List.filterMap_append, List.filterMap_cons, hfe]

/-- Closed instance of `claim_C6_per_entry_isolation`: a batch with one bad
entry parses exactly like the batch without it. -/
theorem claim_C6_witness :
    extractFileMetadata urlResolveDir "https://e/" (jsTrim unicodeEntry.text)
      unicodeEntry.href unicodeEntry.parentText = none ∧
    parseEntries urlResolveDir "https://e/" [plainEntry, unicodeEntry] =
      parseEntries urlResolveDir "https://e/" [plainEntry] :=
  ⟨by decide, claim_C6_per_entry_isolation urlResolveDir "https://e/" [plainEntry] []
    unicodeEntry (by decide)⟩

theorem splitCh_ne_nil (sep : Char) (l : List Char) : splitCh sep l ≠ [] := by
  cases l with
  | nil => simp [splitCh]
  | cons c rest =>
    simp only [splitCh]
    cases h : splitCh sep rest with
    | nil => simp
    | cons hd tl => cases hc : c == sep <;> simp [hc]

theorem splitCh_no_sep (sep : Char) (l : List Char) (h : l.contains sep = false) :
    splitCh sep l = [l] := by
  induction l with
  | nil => rfl
  | cons c rest ih =>
    simp only [List.contains_cons, Bool.or_eq_false_iff] at h
    obtain ⟨h1, h2⟩ := h
    have hcs : (c == sep) = false := by
      cases hcc : c == sep
      · rfl
      · exfalso
        rw [beq_iff_eq] at hcc
        subst hcc
        simp at h1
    simp only [splitCh, ih h2]
    simp [hcs]

/-- C10: for a non-folder filename with no dot, `split('.').pop()` is the
whole filename, so the entire lower-cased filename is looked up in the type
table: names `zip`, `mp4` and `html` classify as archive, video and webpage
rather than the `document` default. -/
theorem claim_C10_extensionless_lookup (href : String)
    (hslash : strEnds href "/" = false) :
    determineFileType "zip" href = "archive" ∧
    determineFileType "mp4" href = "video" ∧
    determineFileType "html" href = "webpage" ∧
    ∀ name : String, name.data.contains '.' = false →
      determineFileType name href = (typeMap.lookup (jsLower name)).getD "document" := by
  refine ⟨?_, ?_, ?_, ?_⟩
  · simp [determineFileType, hslash]; decide
  · simp [determineFileType, hslash]; decide
  · simp [determineFileType, hslash]; decide
  · intro name hdot
    simp [determineFileType, hslash, splitCh_no_sep '.' name.data hdot,
      List.getLastD, strEta]

/-- Closed instance of `claim_C10_extensionless_lookup` at href `zip`. -/
theorem claim_C10_witness :
    strEnds "zip" "/" = false ∧ determineFileType "zip" "zip" = "archive" :=
  ⟨by decide, (claim_C10_extensionless_lookup "zip" (by decide)).1⟩

theorem takeWhile_sat_append (p : Char → Bool) (l r : List Char)
    (hl : ∀ c ∈ l, p c = true)
    (hr : ∀ c, r.head? = some c → p c = false) :
    (l ++ r).takeWhile p = l := by
  induction l with
  | nil =>
    cases r with
    | nil => rfl
    | cons c cs => simp [List.takeWhile_cons, hr c rfl]
  | cons a as ih =>
    have ha := hl a (by simp)
    simp [List.takeWhile_cons, ha, ih (fun c hc => hl c (by simp [hc]))]

theorem floorFormula (i f k m : ℕ) :
    (i * 10 ^ k + f) * m / 10 ^ k =
      Nat.floor (((i : ℚ) + (f : ℚ) / (10 : ℚ) ^ k) * (m : ℚ)) := by
  have h0 : ((10 : ℚ) ^ k) ≠ 0 := by positivity
  have hcast : ((i : ℚ) + (f : ℚ) / (10 : ℚ) ^ k) * (m : ℚ) =
      (((i * 10 ^ k + f) * m : ℕ) : ℚ) / ((10 ^ k : ℕ) : ℚ) := by
    rw [eq_div_iff (by positivity)]
    push_cast
    field_simp
  rw [hcast, Nat.floor_div_nat, Nat.floor_natCast]

theorem multOf_eq (suf : Char) :
    (if suf = 'K' then 1024
     else if suf = 'M' then 1024 * 1024
     else if suf = 'G' then 1024 * 1024 * 1024
     else 1) = multOf suf := rfl

theorem convert_frac (d1 d2 : List Char) (suf : Char)
    (h1 : d1 ≠ []) (hd1 : ∀ c ∈ d1, c.isDigit = true)
    (h2 : d2 ≠ []) (hd2 : ∀ c ∈ d2, c.isDigit = true)
    (hsuf : suf ∈ (['K', 'M', 'G'] : List Char)) :
    convertSizeToBytes ⟨d1 ++ ('.' :: (d2 ++ [suf]))⟩ =
      Nat.floor (((natOfDigits d1 : ℚ) + (natOfDigits d2 : ℚ) / (10 : ℚ) ^ d2.length)
        * (multOf suf : ℚ)) := by
  simp only [List.mem_cons, List.not_mem_nil, or_false] at hsuf
  have hsufnd : suf.isDigit = false := by
    rcases hsuf with rfl | rfl | rfl <;> decide
  have hup : upChar suf = suf := by
    rcases hsuf with rfl | rfl | rfl <;> decide
  have hempty1 : d1.isEmpty = false := by
    cases d1 with
    | nil => exact absurd rfl h1
    | cons a as => rfl
  have hempty2 : d2.isEmpty = false := by
    cases d2 with
    | nil => exact absurd rfl h2
    | cons a as => rfl
  have htake1 : (d1 ++ ('.' :: (d2 ++ [suf]))).takeWhile Char.isDigit = d1 :=
    takeWhile_sat_append _ _ _ hd1 (by intro c hc; simp at hc; subst hc; decide)
  have hdrop1 : (d1 ++ ('.' :: (d2 ++ [suf]))).drop d1.length = '.' :: (d2 ++ [suf]) :=
    List.drop_left _ _
  have htake2 : (d2 ++ [suf]).takeWhile Char.isDigit = d2 :=
    takeWhile_sat_append _ _ _ hd2
      (by intro c hc; simp at hc; subst hc; exact hsufnd)
  have hlast : (d1 ++ ('.' :: (d2 ++ [suf]))).getLastD '0' = suf := by
    rw [show d1 ++ ('.' :: (d2 ++ [suf])) = (d1 ++ '.' :: d2) ++ [suf] by simp]
    exact List.getLastD_concat _ _ _
  simp only [convertSizeToBytes]
  simp only [htake1, hempty1, Bool.false_eq_true, if_false, hdrop1, htake2,
    hempty2, hlast, hup, multOf_eq]
  exact floorFormula _ _ _ _

theorem getLastD_mem (l : List Char) (d : Char) (h : l ≠ []) : l.getLastD d ∈ l := by
  induction l with
  | nil => exact absurd rfl h
  | cons a as ih =>
    cases as with
    | nil => simp [List.getLastD]
    | cons b bs =>
      have := ih (by simp)
      simp only [List.getLastD] at this ⊢
      exact List.mem_cons_of_mem a this

theorem convert_int_suffix (d1 : List Char) (suf : Char)
    (h1 : d1 ≠ []) (hd1 : ∀ c ∈ d1, c.isDigit = true)
    (hsuf : suf ∈ (['K', 'M', 'G'] : List Char)) :
    convertSizeToBytes ⟨d1 ++ [suf]⟩ = natOfDigits d1 * multOf suf := by
  simp only [List.mem_cons, List.not_mem_nil, or_false] at hsuf
  have hsufnd : suf.isDigit = false := by
    rcases hsuf with rfl | rfl | rfl <;> decide
  have hdot : suf ≠ '.' := by
    rcases hsuf with rfl | rfl | rfl <;> decide
  have hup : upChar suf = suf := by
    rcases hsuf with rfl | rfl | rfl <;> decide
  have hempty1 : d1.isEmpty = false := by
    cases d1 with
    | nil => exact absurd rfl h1
    | cons a as => rfl
  have htake1 : (d1 ++ [suf]).takeWhile Char.isDigit = d1 :=
    takeWhile_sat_append _ _ _ hd1
      (by intro c hc; simp at hc; subst hc; exact hsufnd)
  have hdrop1 : (d1 ++ [suf]).drop d1.length = [suf] := List.drop_left _ _
  have hlast : (d1 ++ [suf]).getLastD '0' = suf := List.getLastD_concat _ _ _
  simp only [convertSizeToBytes]
  simp only [htake1, hempty1, Bool.false_eq_true, if_false, hdrop1, hlast, hup,
    multOf_eq]
  split
  · rename_i r2 heq
    exact absurd (by injection heq) hdot
  · simp [natOfDigits]

theorem digit_unit (c : Char) (h : c.isDigit = true) :
    upChar c = c ∧ c ≠ 'K' ∧ c ≠ 'M' ∧ c ≠ 'G' := by
  have hb : 48 ≤ c.toNat ∧ c.toNat ≤ 57 := by
    simp only [Char.isDigit, Bool.and_eq_true, decide_eq_true_eq, ge_iff_le] at h
    obtain ⟨h1, h2⟩ := h
    rw [UInt32.le_def, BitVec.le_def] at h1 h2
    exact ⟨h1, h2⟩
  refine ⟨?_, ?_, ?_, ?_⟩
  · unfold upChar
    rw [if_neg]
    rintro ⟨ha, _⟩
    omega
  · rintro rfl; exact absurd h (by decide)
  · rintro rfl; exact absurd h (by decide)
  · rintro rfl; exact absurd h (by decide)

theorem convert_plain (d1 : List Char)
    (h1 : d1 ≠ []) (hd1 : ∀ c ∈ d1, c.isDigit = true) :
    convertSizeToBytes ⟨d1⟩ = natOfDigits d1 := by
  have hempty1 : d1.isEmpty = false := by
    cases d1 with
    | nil => exact absurd rfl h1
    | cons a as => rfl
  have htake1 : d1.takeWhile Char.isDigit = d1 := by
    rw [List.takeWhile_eq_self_iff]
    exact hd1
  have hlastd := hd1 _ (getLastD_mem d1 '0' h1)
  obtain ⟨hup, hK, hM, hG⟩ := digit_unit _ hlastd
  simp only [convertSizeToBytes]
  simp only [htake1, hempty1, Bool.false_eq_true, if_false, List.drop_length,
    hup, hK, hM, hG, if_neg]
  simp [natOfDigits]

/-- C3: size parsing per listing row.  A trailing bare dash gives
size `Directory` and 0 bytes; a numeric token with suffix `K`/`M`/`G` gives
the literal token as size and the numeric value times 1024, 1024² or 1024³
rounded down; a bare numeric token is the raw byte count; a missing token
gives `Unknown` and 0.  In particular `1.5M` gives 1572864 and `250K` gives
256000 bytes. -/
theorem claim_C3_size_parsing :
    (∀ (d1 d2 : List Char) (suf : Char), d1 ≠ [] → (∀ c ∈ d1, c.isDigit = true) →
      d2 ≠ [] → (∀ c ∈ d2, c.isDigit = true) → suf ∈ (['K', 'M', 'G'] : List Char) →
      convertSizeToBytes ⟨d1 ++ ('.' :: (d2 ++ [suf]))⟩ =
        Nat.floor (((natOfDigits d1 : ℚ) + (natOfDigits d2 : ℚ) / (10 : ℚ) ^ d2.length)
          * (multOf suf : ℚ))) ∧
    (∀ (d1 : List Char) (suf : Char), d1 ≠ [] → (∀ c ∈ d1, c.isDigit = true) →
      suf ∈ (['K', 'M', 'G'] : List Char) →
      convertSizeToBytes ⟨d1 ++ [suf]⟩ = natOfDigits d1 * multOf suf) ∧
    (∀ d1 : List Char, d1 ≠ [] → (∀ c ∈ d1, c.isDigit = true) →
      convertSizeToBytes ⟨d1⟩ = natOfDigits d1) ∧
    parseListingLine "TJ003.pdf   2021-05-12 14:30  1.5M" "TJ003.pdf" =
      ⟨"2021-05-12 14:30", "1.5M", 1572864⟩ ∧
    parseListingLine "TJ003.pdf   2021-05-12 14:30  250K" "TJ003.pdf" =
      ⟨"2021-05-12 14:30", "250K", 256000⟩ ∧
    parseListingLine "subdir/    2021-05-12 14:30    -" "subdir/" =
      ⟨"2021-05-12 14:30", "Directory", 0⟩ ∧
    parseListingLine "file.pdf" "file.pdf" = ⟨"Unknown", "Unknown", 0⟩ :=
  ⟨convert_frac, convert_int_suffix, convert_plain,
    by decide, by decide, by decide, by decide⟩

/-- Closed instance of `claim_C3_size_parsing` on the tokens `1.5M` and
`250K`. -/
theorem claim_C3_witness :
    convertSizeToBytes ⟨['1'] ++ ('.' :: (['5'] ++ ['M']))⟩ =
      Nat.floor (((natOfDigits ['1'] : ℚ) +
        (natOfDigits ['5'] : ℚ) / (10 : ℚ) ^ (['5'] : List Char).length)
        * (multOf 'M' : ℚ)) ∧
    convertSizeToBytes ⟨['2', '5', '0'] ++ ['K']⟩ =
      natOfDigits ['2', '5', '0'] * multOf 'K' :=
  ⟨claim_C3_size_parsing.1 ['1'] ['5'] 'M' (by decide) (by decide) (by decide)
      (by decide) (by decide),
   claim_C3_size_parsing.2.1 ['2', '5', '0'] 'K' (by decide) (by decide) (by decide)⟩

theorem firstMatch_first (s : String) :
    ∀ (pre : List ((String → Bool) × String)) (p : String → Bool) (n : String)
      (post : List ((String → Bool) × String)),
      (∀ q ∈ pre, q.1 s = false) → p s = true →
      firstMatch s (pre ++ (p, n) :: post) = some n := by
  intro pre
  induction pre with
  | nil =>
    intro p n post _ hp
    simp [firstMatch, hp]
  | cons q rest ih =>
    intro p n post hpre hp
    obtain ⟨qp, qn⟩ := q
    have hq : qp s = false := hpre (qp, qn) (by simp)
    simp only [List.cons_append, firstMatch, hq, Bool.false_eq_true, if_false]
    exact ih p n post (fun r hr => hpre r (by simp [hr])) hp

theorem firstMatch_nomatch (s : String) :
    ∀ l : List ((String → Bool) × String),
      (∀ q ∈ l, q.1 s = false) → firstMatch s l = none := by
  intro l
  induction l with
  | nil => intro _; rfl
  | cons q rest ih =>
    intro h
    obtain ⟨qp, qn⟩ := q
    have hq : qp s = false := h (qp, qn) (by simp)
    simp only [firstMatch, hq, Bool.false_eq_true, if_false]
    exact ih (fun r hr => h r (by simp [hr]))

theorem splitCh_len_two (sep : Char) (l : List Char) (h : l.contains sep = true) :
    2 ≤ (splitCh sep l).length := by
  induction l with
  | nil => simp at h
  | cons c rest ih =>
    simp only [splitCh]
    cases hsp : splitCh sep rest with
    | nil => exact absurd hsp (splitCh_ne_nil sep rest)
    | cons hd tl =>
      by_cases hc : c = sep
      · subst hc
        simp
      · have hcb : (c == sep) = false := beq_eq_false_iff_ne.mpr hc
        simp only [hcb, Bool.false_eq_true, if_false]
        have hrest : rest.contains sep = true := by
          simp only [List.contains_cons, Bool.or_eq_true] at h
          rcases h with h | h
          · exact absurd (by rw [beq_iff_eq] at h; exact h.symm) hc
          · exact h
        have := ih hrest
        rw [hsp] at this
        simp only [List.length_cons] at this ⊢
        omega

/-- C4: person inference evaluates the fixed ordered pattern list against the
extension-stripped filename, first match wins, producing exactly one name;
with no match, a name with underscore-separated segments is title-cased and
joined with spaces (such a name always has at least two segments), and
otherwise the person is `Unknown`.  `TJ003_deposition.pdf` maps to
`Timothy Jackson` and `Rachel_Gain_exhibit.pdf` hits the `Gain` pattern,
giving `Rachel Gain`. -/
theorem claim_C4_person_inference :
    extractPersonFromFilename "TJ003_deposition.pdf" = "Timothy Jackson" ∧
    extractPersonFromFilename "Rachel_Gain_exhibit.pdf" = "Rachel Gain" ∧
    (∀ (fn : String) (pre : List ((String → Bool) × String)) (p : String → Bool)
        (n : String) (post : List ((String → Bool) × String)),
        personPatterns = pre ++ (p, n) :: post →
        (∀ q ∈ pre, q.1 (stripExt fn) = false) → p (stripExt fn) = true →
        extractPersonFromFilename fn = n) ∧
    (∀ fn : String, (∀ q ∈ personPatterns, q.1 (stripExt fn) = false) →
        (stripExt fn).data.contains '_' = true →
        extractPersonFromFilename fn =
          joinSep " " (((splitCh '_' (stripExt fn).data).map
            (fun l => (⟨l⟩ : String))).map titleCase)) ∧
    (∀ fn : String, (∀ q ∈ personPatterns, q.1 (stripExt fn) = false) →
        (stripExt fn).data.contains '_' = false →
        extractPersonFromFilename fn = "Unknown") ∧
    (∀ l : List Char, l.contains '_' = true → 2 ≤ (splitCh '_' l).length) := by
  refine ⟨by decide, by decide, ?_, ?_, ?_, splitCh_len_two '_'⟩
  · intro fn pre p n post hpat hpre hp
    simp only [extractPersonFromFilename]
    rw [hpat, firstMatch_first (stripExt fn) pre p n post hpre hp]
  · intro fn hnone hus
    simp only [extractPersonFromFilename]
    rw [firstMatch_nomatch (stripExt fn) personPatterns hnone]
    have hmem : '_' ∈ (stripExt fn).data := by simpa using hus
    have hlen2 : 2 ≤ (splitCh '_' (stripExt fn).data).length :=
      splitCh_len_two '_' _ hus
    simp [hmem, hlen2]
  · intro fn hnone hus
    simp only [extractPersonFromFilename]
    rw [firstMatch_nomatch (stripExt fn) personPatterns hnone]
    have hmem : '_' ∉ (stripExt fn).data := by simpa using hus
    simp [hmem]

/-- Closed instance of `claim_C4_person_inference`: the `Ewell` pattern is
reached after the two patterns before it fail, and an unmatched underscore
name falls back to title-casing. -/
theorem claim_C4_witness :
    extractPersonFromFilename "Ewell_notes.pdf" = "Philip Ewell" ∧
    extractPersonFromFilename "staff_meeting_notes.pdf" =
      joinSep " " (((splitCh '_' (stripExt "staff_meeting_notes.pdf").data).map
        (fun l => (⟨l⟩ : String))).map titleCase) :=
  ⟨claim_C4_person_inference.2.2.1 "Ewell_notes.pdf"
      [(pTJ, "Timothy Jackson"), (pCI "Jackson", "Timothy Jackson")]
      (pCI "Ewell") "Philip Ewell"
      [(pCI "Walls", "Levi Walls"),
       (pCI "Brand", "Benjamin Brand"),
       (pCI "Graf", "Benjamin Graf"),
       (pCI "Gain", "Rachel Gain"),
       (pCI "Heidlberger", "Frank Heidlberger"),
       (pRebecca, "Rebecca Dowd Geoffroy-Schwinden"),
       (pCI "Cowley", "Jennifer Cowley"),
       (pCI "Ishiyama", "John Ishiyama"),
       (pCI "Slottow", "Stephen Slottow"),
       (pCI "Chung", "Andrew Chung"),
       (pCI "Bakulina", "Ellen Bakulina"),
       (pCI "Kohanski", "Peter Kohanski"),
       (pCI "Chaouat", "Bruno Chaouat")]
      rfl (by decide) (by decide),
   claim_C4_person_inference.2.2.2.1 "staff_meeting_notes.pdf"
      (by decide) (by decide)⟩

theorem isNav_iff (href filename : String) :
    isNavigationLink href filename = true ↔
      (SubO ".." href ∨ SubO "Parent Directory" filename ∨ SubO "?C=" href ∨
        PrefO "?" href ∨ PrefO "#" href) := by
  simp only [isNavigationLink, Bool.or_eq_true, strHas_iff, strStarts_iff,
    or_assoc]

/-- C1 (amended): a blank search term returns the record list unchanged;
otherwise `searchFiles` keeps exactly the records where the lower-cased
TRIMMED term occurs in the lower-cased display name, filename, person or
type, or occurs in some keyword as stored (the keyword side is compared
case-sensitively). -/
theorem claim_C1_search (searchTerm : String) (files : List FileRecord) :
    (jsTrim searchTerm = "" → searchFiles searchTerm files = files) ∧
    (jsTrim searchTerm ≠ "" →
      searchFiles searchTerm files = files.filter (fun file =>
        decide (SubO (jsTrim (jsLower searchTerm)) (jsLower file.displayName) ∨
          SubO (jsTrim (jsLower searchTerm)) (jsLower file.filename) ∨
          SubO (jsTrim (jsLower searchTerm)) (jsLower file.person) ∨
          (∃ k ∈ file.keywords, SubO (jsTrim (jsLower searchTerm)) k) ∨
          SubO (jsTrim (jsLower searchTerm)) (jsLower file.type)))) := by
  constructor
  · intro h
    simp [searchFiles, h]
  · intro h
    simp only [searchFiles, if_neg h]
    apply List.filter_congr
    intro f _
    rw [Bool.eq_iff_iff]
    simp only [Bool.or_eq_true, decide_eq_true_eq, List.any_eq_true, strHas_iff,
      or_assoc]

/-- Counterexample to C1 as frozen: the lower-cased term `jackson` is a
case-insensitive substring of the keyword `JACKSON` of `kwRec`, the term is
not blank, yet the search drops the record, because the code matches the
keyword without lower-casing it. -/
theorem claim_C1_cex :
    searchFiles "jackson" [kwRec] = [] ∧
    SubO (jsTrim (jsLower "jackson")) (jsLower "JACKSON") ∧
    kwRec.keywords = ["JACKSON"] ∧
    jsTrim "jackson" ≠ "" := by decide

/-- Closed instance of `claim_C1_search`: a whitespace-only term returns the
input unchanged. -/
theorem claim_C1_witness :
    jsTrim "   " = "" ∧ searchFiles "   " [kwRec] = [kwRec] :=
  ⟨by decide, (claim_C1_search "   " [kwRec]).1 (by decide)⟩

/-- C2 (amended): the parse skips an anchor exactly when its href contains
`..`, its trimmed visible text CONTAINS `Parent Directory`, its href contains
`?C=`, or its href begins with `?` or `#`; every other anchor is a candidate
processed by metadata extraction, in original document order. -/
theorem claim_C2_navigation (resolve : String → String → Except Unit String)
    (baseUrl : String) (entries : List Entry) :
    parseEntries resolve baseUrl entries =
      (entries.filter (fun e =>
        decide (¬ (SubO ".." e.href ∨ SubO "Parent Directory" (jsTrim e.text) ∨
          SubO "?C=" e.href ∨ PrefO "?" e.href ∨ PrefO "#" e.href)))).filterMap
        (fun e => extractFileMetadata resolve baseUrl (jsTrim e.text) e.href
          e.parentText) := by
  induction entries with
  | nil => rfl
  | cons e rest ih =>
    simp only [parseEntries] at ih ⊢
    rw [List.filter_cons, List.filterMap_cons]
    cases hb : isNavigationLink e.href (jsTrim e.text) with
    | true =>
      have hP := (isNav_iff e.href (jsTrim e.text)).mp hb
      have hdec : decide (¬ (SubO ".." e.href ∨
          SubO "Parent Directory" (jsTrim e.text) ∨ SubO "?C=" e.href ∨
          PrefO "?" e.href ∨ PrefO "#" e.href)) = false := by
        simp [hP]
      simp only [hb, if_true, hdec, Bool.false_eq_true, if_false]
      exact ih
    | false =>
      have hP : ¬ (SubO ".." e.href ∨ SubO "Parent Directory" (jsTrim e.text) ∨
          SubO "?C=" e.href ∨ PrefO "?" e.href ∨ PrefO "#" e.href) := by
        intro hp
        rw [(isNav_iff e.href (jsTrim e.text)).mpr hp] at hb
        cases hb
      have hdec : decide (¬ (SubO ".." e.href ∨
          SubO "Parent Directory" (jsTrim e.text) ∨ SubO "?C=" e.href ∨
          PrefO "?" e.href ∨ PrefO "#" e.href)) = true := by
        simp [hP]
      simp only [hb, Bool.false_eq_true, if_false, hdec, if_true,
        List.filterMap_cons]
      cases hm : extractFileMetadata resolve baseUrl (jsTrim e.text) e.href
          e.parentText with
      | none => exact ih
      | some r => rw [ih]

/-- Counterexample to C2 as frozen: an anchor whose visible text merely
contains `Parent Directory` (it does not equal it), with an href that meets
none of the exclusion conditions, is nevertheless dropped by the parse. -/
theorem claim_C2_cex :
    jsTrim pdEntry.text ≠ "Parent Directory" ∧
    ¬ SubO ".." pdEntry.href ∧ ¬ SubO "?C=" pdEntry.href ∧
    ¬ PrefO "?" pdEntry.href ∧ ¬ PrefO "#" pdEntry.href ∧
    parseEntries urlResolveDir "https://e/" [pdEntry] = [] := by decide

/-- C5 (amended): the id of a record is a deterministic function of the
concatenation `filename + href` (equal concatenations give equal ids), and
every record of a parse result carries the id computed from its own filename
and href; but distinctness within one parse result is NOT guaranteed (see
the counterexample). -/
theorem claim_C5_id_derivation (f1 h1 f2 h2 : String)
    (heq : f1 ++ h1 = f2 ++ h2) :
    generateFileId f1 h1 = generateFileId f2 h2 ∧
    (∀ (resolve : String → String → Except Unit String) (baseUrl : String)
        (entries : List Entry) (r : FileRecord),
        r ∈ parseEntries resolve baseUrl entries →
        ∃ e, e ∈ entries ∧ r.filename = jsTrim e.text ∧
          generateFileId r.filename e.href = Except.ok r.id) := by
  constructor
  · unfold generateFileId
    rw [heq]
  · intro resolve baseUrl entries r hr
    simp only [parseEntries, List.mem_filterMap] at hr
    obtain ⟨e, he, hfe⟩ := hr
    refine ⟨e, he, ?_⟩
    by_cases hn : isNavigationLink e.href (jsTrim e.text) = true
    · simp [hn] at hfe
    · simp only [Bool.not_eq_true] at hn
      simp only [hn, Bool.false_eq_true, if_false] at hfe
      unfold extractFileMetadata at hfe
      cases hres : resolve e.href baseUrl with
      | error u => rw [hres] at hfe; simp at hfe
      | ok fullUrl =>
        rw [hres] at hfe
        simp only at hfe
        cases hid : generateFileId (jsTrim e.text) e.href with
        | error u => rw [hid] at hfe; simp at hfe
        | ok fid =>
          rw [hid] at hfe
          simp only at hfe
          cases hdn : cleanDisplayName (jsTrim e.text) with
          | error u => rw [hdn] at hfe; simp at hfe
          | ok dn =>
            rw [hdn] at hfe
            simp only [Option.some.injEq] at hfe
            subst hfe
            exact ⟨rfl, hid⟩

/-- Counterexample to C5 as frozen: two distinct entries of one listing,
whose `filename + href` strings share a long common prefix, receive the same
truncated base64 id, so ids are not pairwise distinct within one parse
result. -/
theorem claim_C5_cex :
    ¬ ((parseEntries urlResolveDir "https://www.rasmusen.org/special/jackson/"
        [collEntryA, collEntryB]).map FileRecord.id).Nodup ∧
    ((parseEntries urlResolveDir "https://www.rasmusen.org/special/jackson/"
        [collEntryA, collEntryB]).map FileRecord.filename).Nodup := by decide

/-- Closed instance of `claim_C5_id_derivation`: equal concatenations give
equal ids. -/
theorem claim_C5_witness :
    ("ab" ++ "c" : String) = "a" ++ "bc" ∧
    generateFileId "ab" "c" = generateFileId "a" "bc" :=
  ⟨by decide, (claim_C5_id_derivation "ab" "c" "a" "bc" (by decide)).1⟩
